import Mathlib

/-!
Shallow embedding of the tag-capture pipeline of `src/src/App.tsx`
(Chafon H103 web tag reader).

The React component keeps its capture state in five pieces of state that
matter to the pipeline: the capture gate `listening`, the dedup toggle
`autoDedup`, the session buffer `tags`, the wedge assembly string `buffer`,
and the wall clock (`Date.now()` plus a `Math.random()` tiebreak used as a
fresh record id).  We model the clock/id source as a single natural-number
counter `now` that strictly increases at every successful insertion: this
captures exactly the properties the source relies on (timestamps
non-decreasing in insertion order, record ids fresh).

Event handlers become pure state-transition functions:
  * `addTag`           — the `addTag` closure (dedup + bounded front insert);
  * `handleLine`       — the `handleLine` closure (gate check + normalize);
  * `onKeyDown`        — the HID-wedge key handler;
  * `onNotify`   — the BLE `characteristicvaluechanged` handler
                         (marker search + hex encoding, NO gate check,
                         exactly as in the source).

Binary payloads (`Uint8Array`) are modelled as `List Nat` whose entries are
byte values (< 256 for any payload a `Uint8Array` can deliver).
-/

namespace H103

/-- A captured tag record: `{ id, epc, rssi?, ts }` in the source.
`seq` models `id = Date.now() + Math.random()` (a fresh stamp) and `ts`
models `ts = Date.now()`; both are drawn from the state's clock counter. -/
structure TagRecord where
  epc : String
  rssi : Option Int
  seq : Nat
  ts : Nat
deriving Repr, DecidableEq

/-- The pipeline-relevant React state of the `App` component. -/
structure AppState where
  listening : Bool
  autoDedup : Bool
  tags : List TagRecord
  buffer : String
  now : Nat
deriving Repr, DecidableEq

/-- The `useState` initializers: `listening = true`, `autoDedup = true`,
`tags = []`, `buffer = ""`. -/
def initialState : AppState :=
  { listening := true, autoDedup := true, tags := [], buffer := "", now := 0 }

/-- The record constructed inside `addTag`:
`{ id: Date.now() + Math.random(), epc, rssi, ts: Date.now() }`. -/
def mkTagRecord (epc : String) (rssi : Option Int) (now : Nat) : TagRecord :=
  { epc := epc, rssi := rssi, seq := now, ts := now }

/-- The whitespace class of JavaScript `String.prototype.trim` (ASCII
whitespace, NBSP and the BOM; the exotic Unicode space separators never
occur in this pipeline's candidates, which are hex digits and
`[0-9a-zA-Z\-_:]` characters). -/
def isJsSpace (c : Char) : Bool :=
  (decide (9 ≤ c.toNat) && decide (c.toNat ≤ 13))
  || c == ' ' || c == '\xa0' || c.toNat == 0xFEFF

/-- JavaScript `epcRaw.trim()`: strip the whitespace class from both ends. -/
def jsTrim (s : String) : String :=
  String.mk (((s.data.dropWhile isJsSpace).reverse.dropWhile isJsSpace).reverse)

/-- Function `addTag(epcRaw, rssi?)` from the source:
trim; drop empty (`if (!epc) return`); when `autoDedup` and the epc is
already present, return the buffer unchanged; otherwise prepend a fresh
record and `.slice(0, 2000)`. -/
def addTag (s : AppState) (epcRaw : String) (rssi : Option Int) : AppState :=
  let epc := jsTrim epcRaw
  if epc.data.isEmpty then s
  else if s.autoDedup && s.tags.any (fun t => t.epc == epc) then s
  else { s with
          tags := (mkTagRecord epc rssi s.now :: s.tags).take 2000,
          now := s.now + 1 }

/-- The character class of `line.replace(/[^0-9a-zA-Z\-_:]/g, "")`:
keep digits, lowercase letters, uppercase letters, `-`, `_`, `:`. -/
def isAllowedChar (c : Char) : Bool :=
  (decide ('0' ≤ c) && decide (c ≤ '9'))
  || (decide ('a' ≤ c) && decide (c ≤ 'z'))
  || (decide ('A' ≤ c) && decide (c ≤ 'Z'))
  || c == '-' || c == '_' || c == ':'

/-- The normalization step of `handleLine`:
`const cleaned = line.replace(/[^0-9a-zA-Z\-_:]/g, "")` — i.e. delete every
character outside the class, keeping the rest in order. -/
def normalize (line : String) : String :=
  String.mk (line.data.filter isAllowedChar)

/-- Function `handleLine(line)` from the source: gate check, normalize, and offer the
cleaned line to `addTag` when non-empty (wedge captures carry no rssi). -/
def handleLine (s : AppState) (line : String) : AppState :=
  if s.listening = false then s
  else
    let cleaned := normalize line
    if cleaned.data.isEmpty then s else addTag s cleaned none

/-- Function `onKeyDown(e)` from the source, keyed by the DOM `e.key` string:
gate check first; `"Enter"` commits the assembly buffer through
`handleLine` and clears it; a length-1 key is appended; `"Backspace"`
drops the last character (`b.slice(0, -1)`); anything else is ignored. -/
def onKeyDown (s : AppState) (key : String) : AppState :=
  if s.listening = false then s
  else if key == "Enter" then
    { handleLine s s.buffer with buffer := "" }
  else if key.data.length == 1 then
    { s with buffer := String.mk (s.buffer.data ++ key.data) }
  else if key == "Backspace" then
    { s with buffer := String.mk s.buffer.data.dropLast }
  else s

/-- One lowercase hex digit, as produced by JavaScript `toString(16)`. -/
def hexDigitChar (n : Nat) : Char :=
  if n < 10 then Char.ofNat (48 + n) else Char.ofNat (87 + n)

/-- JavaScript `b.toString(16).padStart(2, "0")` for a byte `b < 256`: exactly two
lowercase hex digits. -/
def byteToHexLower (b : Nat) : List Char :=
  [hexDigitChar (b / 16), hexDigitChar (b % 16)]

/-- JavaScript `.map(b => b.toString(16).padStart(2, "0")).join("").toUpperCase()`. -/
def hexUpper (bytes : List Nat) : String :=
  String.mk (((bytes.map byteToHexLower).flatten).map Char.toUpper)

/-- The payload-parsing part of the `characteristicvaluechanged` handler:
`idx = data.indexOf(0xE2)`; when found, `data.slice(idx, idx + 12)` (the
slice clamps at the end of the payload) encoded as uppercase hex; when the
marker is absent, no candidate. -/
def parseNotify (data : List Nat) : Option String :=
  match data.findIdx? (fun b => b == 0xE2) with
  | none => none
  | some idx => some (hexUpper ((data.drop idx).take 12))

/-- The full `characteristicvaluechanged` handler: parse the payload and,
when a candidate is extracted, offer it via `addTag`.  Note the source
handler performs NO `listening` check on this path. -/
def onNotify (s : AppState) (data : List Nat) : AppState :=
  match parseNotify data with
  | none => s
  | some epc => addTag s epc none

/-- Function `clearTags()` from the source: `setTags([])`. -/
def clearTags (s : AppState) : AppState :=
  { s with tags := [] }

/-- A sequence of offers (candidate identifier plus optional rssi) fed to
`addTag` in order. -/
def runOffers (s : AppState) (offers : List (String × Option Int)) : AppState :=
  offers.foldl (fun st o => addTag st o.1 o.2) s

/-- A sequence of key events fed to `onKeyDown` in order. -/
def runKeys (s : AppState) (keys : List String) : AppState :=
  keys.foldl onKeyDown s

/-- Predicate: `addTag` accepts the offer (an insertion happens) exactly when the
trimmed candidate is non-empty and is not a dedup-rejected duplicate. -/
def accepts (s : AppState) (epcRaw : String) : Bool :=
  !(jsTrim epcRaw).data.isEmpty
    && !(s.autoDedup && s.tags.any (fun t => t.epc == jsTrim epcRaw))

/-- Newest-first order: the session buffer is strictly decreasing in the
records' `seq` stamps. -/
def NewestFirst (l : List TagRecord) : Prop :=
  l.Pairwise (fun a b => b.seq < a.seq)

/-- The clock counter is strictly ahead of every stamp in the buffer. -/
def ClockAhead (s : AppState) : Prop :=
  ∀ t ∈ s.tags, t.seq < s.now

/-- The spec's character set `[0-9a-zA-Z\-_:]`, written out as a predicate
directly from the spec's words (digits, lowercase, uppercase, dash,
underscore, colon). -/
def SpecAllowed (c : Char) : Prop :=
  ('0' ≤ c ∧ c ≤ '9') ∨ ('a' ≤ c ∧ c ≤ 'z') ∨ ('A' ≤ c ∧ c ≤ 'Z')
  ∨ c = '-' ∨ c = '_' ∨ c = ':'

instance (c : Char) : Decidable (SpecAllowed c) := by
  unfold SpecAllowed
  infer_instance

/-- The initial state with the capture gate closed (the user pressed
Pause). -/
def pausedState : AppState :=
  { initialState with listening := false }

/-- A state whose session buffer already holds the identifier `AB12`. -/
def dupState : AppState :=
  { listening := true, autoDedup := true,
    tags := [mkTagRecord "AB12" none 0], buffer := "", now := 1 }

/-- A state whose session buffer is at the 2000-record capacity, ordered
newest-first, with dedup disabled. -/
def fullState : AppState :=
  { listening := true, autoDedup := false,
    tags := (List.range 2000).map (fun i => mkTagRecord "T" none (2000 - i)),
    buffer := "", now := 2001 }

/-! ### Helper lemmas -/

/-- An offer is either accepted (fresh record prepended, buffer clipped to
2000, clock advanced) or rejected with the state left untouched. -/
theorem addTag_cases (s : AppState) (e : String) (r : Option Int) :
    (accepts s e = true ∧
      addTag s e r
        = { s with tags := (mkTagRecord (jsTrim e) r s.now :: s.tags).take 2000,
                   now := s.now + 1 })
    ∨ (accepts s e = false ∧ addTag s e r = s) := by
  by_cases h1 : (jsTrim e).data.isEmpty = true
  · right
    exact ⟨by simp [accepts, h1], by simp [addTag, h1]⟩
  · by_cases h2 : (s.autoDedup && s.tags.any (fun t => t.epc == jsTrim e)) = true
    · right
      exact ⟨by simp [accepts, h1, h2], by simp [addTag, h1, h2]⟩
    · left
      exact ⟨by simp [accepts, h1, h2], by simp [addTag, h1, h2]⟩

/-- A rejected offer leaves the whole state unchanged. -/
theorem addTag_of_rejects (s : AppState) (e : String) (r : Option Int)
    (h : accepts s e = false) : addTag s e r = s := by
  rcases addTag_cases s e r with ⟨h1, _⟩ | ⟨_, h2⟩
  · rw [h] at h1; cases h1
  · exact h2

/-- An accepted offer prepends the fresh record and clips to 2000. -/
theorem addTag_of_accepts (s : AppState) (e : String) (r : Option Int)
    (h : accepts s e = true) :
    addTag s e r
      = { s with tags := (mkTagRecord (jsTrim e) r s.now :: s.tags).take 2000,
                 now := s.now + 1 } := by
  rcases addTag_cases s e r with ⟨_, h2⟩ | ⟨h1, _⟩
  · exact h2
  · rw [h] at h1; cases h1

/-- Offers never touch the dedup toggle. -/
theorem addTag_autoDedup (s : AppState) (e : String) (r : Option Int) :
    (addTag s e r).autoDedup = s.autoDedup := by
  rcases addTag_cases s e r with ⟨_, h2⟩ | ⟨_, h2⟩ <;> rw [h2]

/-- An accepted offer inserts at the front, keeping at most the 1999
youngest previous records behind it. -/
theorem addTag_front_insert (s : AppState) (e : String) (r : Option Int)
    (hacc : accepts s e = true) :
    (addTag s e r).tags = mkTagRecord (jsTrim e) r s.now :: s.tags.take 1999 := by
  rw [addTag_of_accepts s e r hacc]
  dsimp only
  rw [show (2000 : Nat) = 1999 + 1 from rfl, List.take_succ_cons]

/-- One offer keeps the buffer within the 2000-record bound. -/
theorem addTag_length_le (s : AppState) (e : String) (r : Option Int)
    (h : s.tags.length ≤ 2000) : (addTag s e r).tags.length ≤ 2000 := by
  rcases addTag_cases s e r with ⟨_, h2⟩ | ⟨_, h2⟩
  · rw [h2]
    dsimp only
    rw [List.length_take]
    omega
  · rw [h2]; exact h

/-- Any offer sequence keeps the buffer within the 2000-record bound. -/
theorem runOffers_length_le :
    ∀ (offers : List (String × Option Int)) (s : AppState),
      s.tags.length ≤ 2000 → (runOffers s offers).tags.length ≤ 2000 := by
  intro offers
  induction offers with
  | nil => exact fun _ h => h
  | cons o rest ih => exact fun s h => ih _ (addTag_length_le s o.1 o.2 h)

/-- With dedup on, one offer preserves distinctness of the stored epcs. -/
theorem addTag_nodup (s : AppState) (e : String) (r : Option Int)
    (hd : s.autoDedup = true)
    (h : (s.tags.map TagRecord.epc).Nodup) :
    ((addTag s e r).tags.map TagRecord.epc).Nodup := by
  rcases addTag_cases s e r with ⟨hacc, heq⟩ | ⟨_, heq⟩
  · rw [heq]
    dsimp only
    rw [List.map_take, List.map_cons]
    refine List.Nodup.sublist (List.take_sublist _ _) ?_
    refine List.nodup_cons.mpr ⟨?_, h⟩
    simp only [accepts, Bool.and_eq_true, Bool.not_eq_true'] at hacc
    have hany := hacc.2
    rw [hd, Bool.true_and] at hany
    intro hmem
    rcases List.mem_map.mp hmem with ⟨t, ht, hte⟩
    have : s.tags.any (fun t => t.epc == jsTrim e) = true := by
      refine List.any_eq_true.mpr ⟨t, ht, ?_⟩
      simp [mkTagRecord] at hte
      simp [hte]
    rw [hany] at this
    cases this
  · rw [heq]; exact h

/-- With dedup on, any offer sequence preserves distinctness of epcs. -/
theorem runOffers_nodup :
    ∀ (offers : List (String × Option Int)) (s : AppState),
      s.autoDedup = true → (s.tags.map TagRecord.epc).Nodup →
      ((runOffers s offers).tags.map TagRecord.epc).Nodup := by
  intro offers
  induction offers with
  | nil => exact fun _ _ h => h
  | cons o rest ih =>
      intro s hd h
      exact ih _ (by rw [addTag_autoDedup]; exact hd) (addTag_nodup s o.1 o.2 hd h)

/-- One offer preserves the newest-first order and the clock bound. -/
theorem addTag_inv (s : AppState) (e : String) (r : Option Int)
    (h : NewestFirst s.tags ∧ ClockAhead s) :
    NewestFirst (addTag s e r).tags ∧ ClockAhead (addTag s e r) := by
  obtain ⟨hnf, hca⟩ := h
  rcases addTag_cases s e r with ⟨_, heq⟩ | ⟨_, heq⟩
  · rw [heq]
    constructor
    · show (((mkTagRecord (jsTrim e) r s.now :: s.tags).take 2000)).Pairwise
        (fun a b => b.seq < a.seq)
      refine List.Pairwise.sublist (List.take_sublist _ _) ?_
      refine List.pairwise_cons.mpr ⟨?_, hnf⟩
      intro t ht
      exact hca t ht
    · intro t ht
      have ht' := List.mem_of_mem_take ht
      rcases List.mem_cons.mp ht' with rfl | htags
      · exact Nat.lt_succ_self _
      · exact Nat.lt_succ_of_lt (hca t htags)
  · rw [heq]; exact ⟨hnf, hca⟩

/-- Any offer sequence preserves the newest-first order and clock bound. -/
theorem runOffers_inv :
    ∀ (offers : List (String × Option Int)) (s : AppState),
      NewestFirst s.tags ∧ ClockAhead s →
      NewestFirst (runOffers s offers).tags ∧ ClockAhead (runOffers s offers) := by
  intro offers
  induction offers with
  | nil => exact fun _ h => h
  | cons o rest ih => exact fun s h => ih _ (addTag_inv s o.1 o.2 h)

/-- In a strictly-decreasing-by-`seq` list, the last element has the
minimal `seq`. -/
theorem pairwise_getLast_min (l : List TagRecord)
    (hp : l.Pairwise (fun a b => b.seq < a.seq)) (h : l ≠ []) :
    ∀ t ∈ l, (l.getLast h).seq ≤ t.seq := by
  rcases List.eq_nil_or_concat l with rfl | ⟨l2, x, rfl⟩
  · exact absurd rfl h
  · have hlast : (l2.concat x).getLast h = x := by simp
    rw [List.concat_eq_append] at hp
    rw [List.pairwise_append] at hp
    intro t ht
    rw [List.concat_eq_append] at ht
    rcases List.mem_append.mp ht with htl | htr
    · rw [hlast]
      exact Nat.le_of_lt (hp.2.2 t htl x (List.mem_singleton_self x))
    · have hx : t = x := by simpa using htr
      subst hx
      rw [hlast]

/-- The character filter of the source agrees with the spec's character
set, character by character. -/
theorem isAllowedChar_iff (c : Char) : isAllowedChar c = true ↔ SpecAllowed c := by
  simp only [isAllowedChar, SpecAllowed, Bool.or_eq_true, Bool.and_eq_true,
    decide_eq_true_eq, beq_iff_eq]
  tauto

set_option maxRecDepth 8000 in
/-- The capacity witness state really holds 2000 records. -/
theorem fullState_length : fullState.tags.length = 2000 := by
  show ((List.range 2000).map (fun i => mkTagRecord "T" none (2000 - i))).length = 2000
  rw [List.length_map, List.length_range]

set_option maxRecDepth 8000 in
/-- The capacity witness state is ordered newest-first. -/
theorem fullState_newestFirst : NewestFirst fullState.tags := by
  show (((List.range 2000).map fun i => mkTagRecord "T" none (2000 - i))).Pairwise
    (fun a b => b.seq < a.seq)
  rw [List.pairwise_map]
  refine List.Pairwise.imp_of_mem ?_ (List.pairwise_lt_range 2000)
  intro a b ha hb hab
  have hb' : b < 2000 := List.mem_range.mp hb
  show (mkTagRecord "T" none (2000 - b)).seq < (mkTagRecord "T" none (2000 - a)).seq
  simp only [mkTagRecord]
  omega

/-! ### Claim theorems -/

/-- Invariant holds at session start: empty buffer, clock at zero. -/
theorem initialState_inv : NewestFirst initialState.tags ∧ ClockAhead initialState := by
  constructor
  · show List.Pairwise _ ([] : List TagRecord)
    exact List.Pairwise.nil
  · intro t ht
    cases ht

/-- C1 counterexample: the claim "while the Capture Gate is closed, no
candidate from either input mode reaches the Session Buffer" fails on the
notification path: with the gate closed, a payload containing the marker
byte still appends a record, because the `characteristicvaluechanged`
handler performs no gate check. -/
theorem gate_closed_notify_mutates_buffer :
    (onNotify pausedState [0x01, 0xE2, 0x11]).tags ≠ pausedState.tags := by
  decide

/-- C1 (amended): while the Capture Gate is closed, no wedge-mode
candidate reaches the Session Buffer — both the wedge line handler and the
key handler leave the entire state unchanged. -/
theorem gate_closed_blocks_wedge (s : AppState) (line key : String)
    (h : s.listening = false) :
    handleLine s line = s ∧ onKeyDown s key = s := by
  constructor
  · simp [handleLine, h]
  · simp [onKeyDown, h]

/-- Witness for the amended C1 at a concrete paused state. -/
theorem gate_closed_blocks_wedge_witness :
    handleLine pausedState "AB12" = pausedState
      ∧ onKeyDown pausedState "A" = pausedState :=
  gate_closed_blocks_wedge pausedState "AB12" "A" rfl

/-- C2: with uniqueness (dedup) enabled, any offer sequence keeps the
stored identifiers pairwise distinct, and an offer whose (trimmed)
identifier is already present anywhere in the buffer is rejected with the
state left completely unchanged. -/
theorem dedup_uniqueness :
    (∀ (s : AppState) (offers : List (String × Option Int)),
        s.autoDedup = true → (s.tags.map TagRecord.epc).Nodup →
        ((runOffers s offers).tags.map TagRecord.epc).Nodup)
    ∧ (∀ (s : AppState) (e : String) (r : Option Int),
        s.autoDedup = true → (∃ t ∈ s.tags, t.epc = jsTrim e) →
        addTag s e r = s) := by
  constructor
  · exact fun s offers hd h => runOffers_nodup offers s hd h
  · intro s e r hd hex
    obtain ⟨t, ht, hte⟩ := hex
    apply addTag_of_rejects
    have hany : s.tags.any (fun x => x.epc == jsTrim e) = true :=
      List.any_eq_true.mpr ⟨t, ht, by simp [hte]⟩
    simp [accepts, hd, hany]

/-- Witness for C2: two identical offers leave a duplicate-free buffer,
and a duplicate offer against a buffer holding `AB12` is a no-op. -/
theorem dedup_uniqueness_witness :
    ((runOffers initialState [("AB12", none), ("AB12", none)]).tags.map
        TagRecord.epc).Nodup
      ∧ addTag dupState "AB12" none = dupState :=
  ⟨dedup_uniqueness.1 initialState [("AB12", none), ("AB12", none)] rfl
      (by decide),
   dedup_uniqueness.2 dupState "AB12" none rfl (by decide)⟩

/-- C3: the buffer never exceeds 2000 records over any offer sequence; an
accepted offer inserts at the front; at capacity the evicted record is
exactly the last (oldest, minimal `seq`) record present before the offer;
and every buffer reachable from session start is ordered newest-first. -/
theorem bounded_retention :
    (∀ (s : AppState) (offers : List (String × Option Int)),
        s.tags.length ≤ 2000 → (runOffers s offers).tags.length ≤ 2000)
    ∧ (∀ (s : AppState) (e : String) (r : Option Int), accepts s e = true →
        (addTag s e r).tags
          = mkTagRecord (jsTrim e) r s.now :: s.tags.take 1999)
    ∧ (∀ (s : AppState) (e : String) (r : Option Int), accepts s e = true →
        s.tags.length = 2000 → NewestFirst s.tags →
        (addTag s e r).tags
            = mkTagRecord (jsTrim e) r s.now :: s.tags.dropLast
          ∧ ∀ (h : s.tags ≠ []), ∀ t ∈ s.tags, (s.tags.getLast h).seq ≤ t.seq)
    ∧ (∀ offers : List (String × Option Int),
        NewestFirst (runOffers initialState offers).tags) := by
  refine ⟨fun s offers h => runOffers_length_le offers s h,
          fun s e r h => addTag_front_insert s e r h, ?_, ?_⟩
  · intro s e r hacc hlen hnf
    constructor
    · rw [addTag_front_insert s e r hacc]
      congr 1
      rw [List.dropLast_eq_take, hlen]
    · intro h t ht
      exact pairwise_getLast_min s.tags hnf h t ht
  · intro offers
    exact (runOffers_inv offers initialState initialState_inv).1

/-- Witness for C3 at concrete states, including a buffer at the
2000-record capacity. -/
theorem bounded_retention_witness :
    (runOffers initialState [("A", none)]).tags.length ≤ 2000
      ∧ (addTag initialState "AB" none).tags
          = mkTagRecord (jsTrim "AB") none initialState.now
              :: initialState.tags.take 1999
      ∧ (addTag fullState "AB" none).tags
          = mkTagRecord (jsTrim "AB") none fullState.now :: fullState.tags.dropLast
      ∧ NewestFirst (runOffers initialState []).tags :=
  ⟨bounded_retention.1 initialState [("A", none)] (by decide),
   bounded_retention.2.1 initialState "AB" none (by decide),
   (bounded_retention.2.2.1 fullState "AB" none (by decide) fullState_length
      fullState_newestFirst).1,
   bounded_retention.2.2.2 []⟩

/-- C4: the 14-byte payload `01 E2 11 22 33 44 55 66 77 88 99 AA BB CC`
parses to the identifier `E2112233445566778899AABB` (first `0xE2` located,
12 bytes from it, uppercase hex, no separator). -/
theorem marker_extraction_example :
    parseNotify [0x01, 0xE2, 0x11, 0x22, 0x33, 0x44, 0x55, 0x66,
                 0x77, 0x88, 0x99, 0xAA, 0xBB, 0xCC]
      = some "E2112233445566778899AABB" := by
  decide

/-- C5: `normalize` returns exactly its input with every character outside
the spec set `[0-9a-zA-Z\-_:]` removed, order preserved, and hence every
character of the output lies in that set. -/
theorem normalize_charset (s : String) :
    (normalize s).data = s.data.filter (fun c => decide (SpecAllowed c))
      ∧ ∀ c ∈ (normalize s).data, SpecAllowed c := by
  have hfun : ∀ c : Char, isAllowedChar c = decide (SpecAllowed c) := by
    intro c
    by_cases hsp : SpecAllowed c
    · simp [hsp, (isAllowedChar_iff c).mpr hsp]
    · have h1 : isAllowedChar c ≠ true := fun hh => hsp ((isAllowedChar_iff c).mp hh)
      simp [hsp, Bool.eq_false_iff.mpr h1]
  constructor
  · show s.data.filter isAllowedChar = s.data.filter (fun c => decide (SpecAllowed c))
    exact List.filter_congr (fun c _ => hfun c)
  · intro c hc
    have hc' : c ∈ s.data.filter isAllowedChar := hc
    exact (isAllowedChar_iff c).mp (List.of_mem_filter hc')

/-- Witness for C5 at a concrete string with characters to strip. -/
theorem normalize_charset_witness :
    (normalize "a b!c").data
        = "a b!c".data.filter (fun c => decide (SpecAllowed c))
      ∧ SpecAllowed (Char.ofNat 97) :=
  ⟨(normalize_charset "a b!c").1,
   (normalize_charset "a b!c").2 (Char.ofNat 97) (by decide)⟩

/-- C6: normalization is idempotent. -/
theorem normalize_idempotent (s : String) :
    normalize (normalize s) = normalize s := by
  show String.mk ((s.data.filter isAllowedChar).filter isAllowedChar)
      = String.mk (s.data.filter isAllowedChar)
  rw [List.filter_filter]
  simp

/-- C7: from the initial state (gate open, dedup on), the key sequence
`A B 1 2 Enter` stores exactly one record with identifier `AB12` and
clears the assembly buffer; repeating the same sequence adds nothing (the
duplicate is rejected) and the buffer stays at length 1. -/
theorem wedge_end_to_end :
    ((runKeys initialState ["A", "B", "1", "2", "Enter"]).tags.map TagRecord.epc
        = ["AB12"])
    ∧ (runKeys initialState ["A", "B", "1", "2", "Enter"]).buffer = ""
    ∧ (runKeys (runKeys initialState ["A", "B", "1", "2", "Enter"])
          ["A", "B", "1", "2", "Enter"]).tags.map TagRecord.epc = ["AB12"]
    ∧ (runKeys (runKeys initialState ["A", "B", "1", "2", "Enter"])
          ["A", "B", "1", "2", "Enter"]).tags.length = 1
    ∧ (runKeys (runKeys initialState ["A", "B", "1", "2", "Enter"])
          ["A", "B", "1", "2", "Enter"]).buffer = "" := by
  decide

/-- C8: whenever the first `0xE2` marker sits fewer than 12 bytes from the
end of the payload, the parser totally (no failure path) extracts exactly
the remaining bytes as an uppercase-hex identifier, and the notification
handler offers that truncated identifier to the buffer. -/
theorem truncated_marker_accepted (data : List Nat) (idx : Nat)
    (hfind : data.findIdx? (fun b => b == 0xE2) = some idx)
    (hlen : data.length - idx < 12) :
    parseNotify data = some (hexUpper (data.drop idx))
      ∧ ∀ s : AppState, onNotify s data = addTag s (hexUpper (data.drop idx)) none := by
  have htake : (data.drop idx).take 12 = data.drop idx := by
    apply List.take_of_length_le
    rw [List.length_drop]
    omega
  have hparse : parseNotify data = some (hexUpper (data.drop idx)) := by
    simp [parseNotify, hfind, htake]
  exact ⟨hparse, fun s => by simp [onNotify, hparse]⟩

/-- Witness for C8 on a 3-byte payload whose marker is at index 1. -/
theorem truncated_marker_accepted_witness :
    parseNotify [0x01, 0xE2, 0x34] = some (hexUpper ([0x01, 0xE2, 0x34].drop 1))
      ∧ onNotify initialState [0x01, 0xE2, 0x34]
          = addTag initialState (hexUpper ([0x01, 0xE2, 0x34].drop 1)) none :=
  ⟨(truncated_marker_accepted [0x01, 0xE2, 0x34] 1 (by decide) (by decide)).1,
   (truncated_marker_accepted [0x01, 0xE2, 0x34] 1 (by decide) (by decide)).2
      initialState⟩

/-- C9: the wedge path gates at the keystroke level — while the gate is
closed no key event (character, delete or delimiter) changes anything: the
assembly buffer is neither extended nor committed nor cleared. -/
theorem gate_closed_keystroke_frame (s : AppState) (key : String)
    (h : s.listening = false) : onKeyDown s key = s := by
  simp [onKeyDown, h]

/-- Witness for C9: a paused state with a partially typed line absorbs a
character, a delete and a delimiter without changing. -/
theorem gate_closed_keystroke_frame_witness :
    onKeyDown { pausedState with buffer := "AB" } "1"
      = { pausedState with buffer := "AB" } :=
  gate_closed_keystroke_frame { pausedState with buffer := "AB" } "1" rfl

/-- C10: deduplication is exact, case-sensitive string comparison: with
dedup on, offering `ab12` after `AB12` stores a second record and both
remain; wedge normalization does not upper-case, while the notification
path emits upper-case hex. -/
theorem dedup_case_sensitive :
    (handleLine (handleLine initialState "AB12") "ab12").tags.map TagRecord.epc
        = ["ab12", "AB12"]
      ∧ (handleLine (handleLine initialState "AB12") "ab12").tags.length = 2
      ∧ normalize "ab12" = "ab12"
      ∧ parseNotify [0xE2, 0xAB] = some "E2AB" := by
  decide


end H103
